import Mathlib

/-
Verification of the db-ops job selection and parallel execution engine.

The definitions below are a shallow embedding of the Python sources:
  src/dbops/core/jobs.py            (Job, JobRun, RunStatus)
  src/dbops/core/selectors.py       (NameRegexSelector, TagSelector, And/Or)
  src/dbops/cli/common/selector_builder.py (build_selector)
  src/dbops/core/adapters/databricksjobs.py (inventory cache)
  src/dbops/core/runs.py            (start_jobs_parallel)
  src/dbops/cli/common/progress.py  (wait_for_runs_with_progress)
Python ValueError values raised by the core are modelled by an explicit
error type; fallible functions return Except/Option values.
-/

namespace DbOps

/-- Run status enumeration from src/dbops/core/jobs.py (RunStatus). -/
inductive RunStatus where
  | pending
  | running
  | success
  | failed
  | canceled
  | unknown
deriving DecidableEq, Repr

/-- SUCCESS, FAILED and CANCELED are the terminal statuses
(the membership test on line 154 of progress.py and lines 87-91 of runs.py). -/
def RunStatus.isTerminal : RunStatus → Bool
  | .success => true
  | .failed => true
  | .canceled => true
  | _ => false

/-- FAILED and CANCELED count towards the failures tally
(line 158 of progress.py). -/
def RunStatus.isFailure : RunStatus → Bool
  | .failed => true
  | .canceled => true
  | _ => false

/-- Job record from src/dbops/core/jobs.py: integer id, name, and an optional
tag mapping (a Python dict with string keys, embedded as an association list;
`none` embeds Python None). -/
structure Job where
  id : Int
  name : String
  tags : Option (List (String × String)) := none
deriving DecidableEq, Repr

/-- JobRun record from src/dbops/core/jobs.py. -/
structure JobRun where
  run_id : Int
  job_id : Int
deriving DecidableEq, Repr

/-- Errors raised by the core as Python ValueError, split by the spec's
taxonomy: invalidSelector for selector construction problems,
invalidArgument for bad dispatch arguments. The string is the ValueError
message. -/
inductive DbError where
  | invalidSelector (msg : String)
  | invalidArgument (msg : String)
deriving DecidableEq, Repr

/-- A regular-expression atom base: a literal character or the wildcard
dot. This models the fragment of Python `re` syntax used by the
embedding (literals, `.`, and postfix `*`). -/
inductive RegexBase where
  | lit (c : Char)
  | dot
deriving DecidableEq, Repr

/-- Whether a base matches one character. -/
def RegexBase.matchesChar : RegexBase → Char → Bool
  | .lit c, d => c = d
  | .dot, _ => true

/-- A compiled regex atom: a base, possibly starred. -/
structure RegexAtom where
  base : RegexBase
  star : Bool
deriving DecidableEq, Repr

/-- A compiled pattern is a sequence of atoms. -/
abbrev RegexProg := List RegexAtom

/-- Interpret one pattern character as an atom base (`.` is the wildcard). -/
def charBase (c : Char) : RegexBase :=
  if c = '.' then .dot else .lit c

/-- Compile a pattern, modelling Python re.compile on the embedded fragment:
a `*` must follow a literal or `.`; a leading `*` or a doubled `*` is a
compilation error (Python "nothing to repeat"), yielding `none`. -/
def parseRegexChars : List Char → Option RegexProg
  | [] => some []
  | '*' :: _ => none
  | c :: '*' :: rest => (parseRegexChars rest).map (fun p => ⟨charBase c, true⟩ :: p)
  | c :: rest => (parseRegexChars rest).map (fun p => ⟨charBase c, false⟩ :: p)

/-- Compile a pattern string. -/
def parseRegex (s : String) : Option RegexProg :=
  parseRegexChars s.data

/-- Declarative matching semantics: `SegMatch p cs` holds when the compiled
pattern `p` matches exactly the character segment `cs`. -/
inductive SegMatch : RegexProg → List Char → Prop where
  | nil : SegMatch [] []
  | one {b : RegexBase} {p : RegexProg} {c : Char} {cs : List Char} :
      b.matchesChar c = true → SegMatch p cs → SegMatch (⟨b, false⟩ :: p) (c :: cs)
  | starSkip {b : RegexBase} {p : RegexProg} {cs : List Char} :
      SegMatch p cs → SegMatch (⟨b, true⟩ :: p) cs
  | starStep {b : RegexBase} {p : RegexProg} {c : Char} {cs : List Char} :
      b.matchesChar c = true → SegMatch (⟨b, true⟩ :: p) cs →
      SegMatch (⟨b, true⟩ :: p) (c :: cs)

/-- Whether a pattern matches the empty segment (every atom starred). -/
def matchPreNilP : RegexProg → Bool
  | [] => true
  | a :: p => if a.star then matchPreNilP p else false

/-- Matching a pattern against a non-empty input whose first character is c:
`rest` decides the remaining input against an arbitrary pattern. A starred
atom either is skipped or consumes c and stays; an unstarred atom must
consume c. -/
def matchPreCons (rest : RegexProg → Bool) (c : Char) : RegexProg → Bool
  | [] => true
  | a :: p =>
    if a.star then
      matchPreCons rest c p || (a.base.matchesChar c && rest (a :: p))
    else
      a.base.matchesChar c && rest p

/-- Matching by recursion on the input characters. -/
def matchPreL : List Char → RegexProg → Bool
  | [] => matchPreNilP
  | c :: cs => matchPreCons (matchPreL cs) c

/-- Executable matcher: does `p` match some prefix of `cs`? This is the
match-at-the-current-position operation of the compiled pattern. -/
def matchPre (p : RegexProg) (cs : List Char) : Bool :=
  matchPreL cs p

/-- Executable search: does `p` match starting at some position of `cs`?
This models Python re.search (substring search, no anchoring). -/
def searchChars (p : RegexProg) : List Char → Bool
  | [] => matchPre p []
  | c :: cs => matchPre p (c :: cs) || searchChars p cs

/-- Selector sum type mirroring the JobSelector class hierarchy of
src/dbops/core/selectors.py: NameRegexSelector holds a compiled pattern,
TagSelector a key/value pair, AndSelector/OrSelector lists of children. -/
inductive Selector where
  | nameRegex (prog : RegexProg)
  | tag (key value : String)
  | and (children : List Selector)
  | or (children : List Selector)

mutual

/-- Matching logic of each selector, from src/dbops/core/selectors.py:
NameRegexSelector.matches uses regex search on job.name; TagSelector.matches
returns False when job.tags is falsy (None or empty) and otherwise compares
the looked-up value; And/Or fold their children with all/any. -/
def Selector.matches : Selector → Job → Bool
  | .nameRegex prog, job => searchChars prog job.name.data
  | .tag k v, job =>
    match job.tags with
    | none => false
    | some l => if l.isEmpty then false else l.lookup k == some v
  | .and children, job => Selector.matchesAll children job
  | .or children, job => Selector.matchesAny children job

/-- Python all(s.matches(job) for s in self.selectors). -/
def Selector.matchesAll : List Selector → Job → Bool
  | [], _ => true
  | s :: rest, job => s.matches job && Selector.matchesAll rest job

/-- Python any(s.matches(job) for s in self.selectors). -/
def Selector.matchesAny : List Selector → Job → Bool
  | [], _ => false
  | s :: rest, job => s.matches job || Selector.matchesAny rest job

end

/-- construction of NameRegexSelector (lines 51-61 of selectors.py):
re.compile is attempted inside the constructor and a compilation error is
converted to a ValueError immediately, at construction time. -/
def buildNameRegexSelector (pat : String) : Except DbError Selector :=
  match parseRegex pat with
  | none => .error (.invalidSelector "Invalid regex expression")
  | some prog => .ok (.nameRegex prog)

/-- Predicate for Python `"=" in tag`. -/
def hasEqChar (cs : List Char) : Bool :=
  cs.any (fun c => c = '=')

/-- Python `tag.split("=", 1)`: the part before the first `=` and the part
after it (which may itself contain `=`). -/
def splitTagChars (cs : List Char) : List Char × List Char :=
  (cs.takeWhile (fun c => c ≠ '='), (cs.dropWhile (fun c => c ≠ '=')).tail)

/-- The TagSelector built from one `key=value` tag string. -/
def tagSelectorOf (t : String) : Selector :=
  .tag (String.mk (splitTagChars t.data).1) (String.mk (splitTagChars t.data).2)

/-- The tag loop of build_selector (lines 56-61 of selector_builder.py):
each tag string must contain a `=`, else a ValueError naming the string is
raised; otherwise the string is split at the first `=`. -/
def buildTagSelectors : List String → Except DbError (List Selector)
  | [] => .ok []
  | t :: ts =>
    if hasEqChar t.data then
      (buildTagSelectors ts).map (fun rest => tagSelectorOf t :: rest)
    else
      .error (.invalidSelector ("Ongeldige tag selector: '" ++ t ++ "' (verwacht key=value)"))

/-- The name stage of build_selector (lines 53-54): a falsy name (None or
the empty string) contributes no selector, otherwise a NameRegexSelector is
constructed (its regex error propagating). -/
def nameStage (name : Option String) : Except DbError (List Selector) :=
  match name with
  | none => .ok []
  | some s =>
    if s = "" then .ok []
    else (buildNameRegexSelector s).map (fun sel => [sel])

/-- build_selector from src/dbops/cli/common/selector_builder.py: collect
the name selector then the tag selectors; zero selectors is a ValueError;
one selector is returned unwrapped; two or more are wrapped in OrSelector
when use_or is set, else AndSelector. -/
def build_selector (name : Option String) (tags : List String) (use_or : Bool) :
    Except DbError Selector :=
  match nameStage name with
  | .error e => .error e
  | .ok nameSels =>
    match buildTagSelectors tags with
    | .error e => .error e
    | .ok tagSels =>
      match nameSels ++ tagSels with
      | [] => .error (.invalidSelector "Minstens één selector is verplicht (--name of --tag)")
      | [s] => .ok s
      | sels => .ok (if use_or then .or sels else .and sels)

/-- Environment configuration read by the inventory cache of
src/dbops/core/adapters/databricksjobs.py: the DBOPS_JOBS_CACHE_DISABLE and
DBOPS_JOBS_CACHE_TTL variables (`none` embeds an unset variable). -/
structure CacheEnv where
  disableFlag : Option String := none
  ttlOverride : Option String := none

/-- Whitespace characters removed by Python str.strip(). -/
def isStripChar (c : Char) : Bool :=
  c = ' ' || c = '\t' || c = '\n' || c = '\r' || c = '\x0b' || c = '\x0c'

/-- Python raw.strip().lower() on the flag string (ASCII lowering, which is
exact for the recognized truthy strings). -/
def stripLower (s : String) : String :=
  String.mk ((((s.data.dropWhile isStripChar).reverse.dropWhile isStripChar).reverse).map
    Char.toLower)

/-- Value of a digit run, `none` when empty or containing a non-digit. -/
def digitsToNat : List Char → Option Nat
  | [] => none
  | cs =>
    if cs.all Char.isDigit then
      some (cs.foldl (fun acc c => acc * 10 + (c.toNat - '0'.toNat)) 0)
    else none

/-- Python int(raw) on an environment string: an optional sign followed by
digits; anything else raises ValueError, embedded as `none`. -/
def parseIntStr (s : String) : Option Int :=
  match s.data with
  | '-' :: rest => (digitsToNat rest).map (fun n => -(n : Int))
  | '+' :: rest => (digitsToNat rest).map (fun n => (n : Int))
  | cs => (digitsToNat cs).map (fun n => (n : Int))

/-- Effective cache TTL in seconds (_cache_ttl_seconds, lines 43-51):
default 300; an integer override is clamped to at least 0; an unparsable
override falls back to the default. -/
def cacheTtlSeconds (env : CacheEnv) : Int :=
  match env.ttlOverride with
  | none => 300
  | some raw =>
    match parseIntStr raw with
    | none => 300
    | some i => max i 0

/-- Whether caching is enabled (_cache_enabled, lines 53-58): disabled when
the disable flag, stripped and lowercased, is a truthy string; otherwise
enabled iff the TTL is positive. -/
def cacheEnabled (env : CacheEnv) : Bool :=
  if stripLower (env.disableFlag.getD "") ∈ (["1", "true", "yes"] : List String) then false
  else cacheTtlSeconds env > 0

/-- One job record inside the cache file: the JSON object written by
_store_cached_jobs always carries id, name and a (possibly empty) tags
object. -/
structure CachedJobRecord where
  id : Int
  name : String
  tags : List (String × String)
deriving DecidableEq, Repr

/-- The cache file payload: a timestamp and the job records. The JSON
serialization layer (json.dumps/json.loads) is a bijection on these values
and is embedded as the identity; time.time() is embedded as an integer
simulated clock. -/
structure CachePayload where
  timestamp : Int
  jobs : List CachedJobRecord
deriving DecidableEq, Repr

/-- _store_cached_jobs (lines 90-103): a no-op when caching is disabled,
otherwise the identity's file is overwritten with the current timestamp and
one record per job, a job's absent tag mapping written as the empty object
(dict(job.tags or {})). The cache file is passed and returned explicitly. -/
def store_cached_jobs (env : CacheEnv) (now : Int) (jobs : List Job)
    (file : Option CachePayload) : Option CachePayload :=
  if cacheEnabled env then
    some { timestamp := now,
           jobs := jobs.map (fun j => { id := j.id, name := j.name, tags := j.tags.getD [] }) }
  else file

/-- _load_cached_jobs (lines 60-88): None when caching is disabled, the file
is absent, or the entry is older than the TTL (now - timestamp > ttl);
otherwise the records are decoded into Jobs, a record's tags object loaded
as-is (item.get("tags") or \x7b\x7d never yields None). -/
def load_cached_jobs (env : CacheEnv) (now : Int) (file : Option CachePayload) :
    Option (List Job) :=
  if cacheEnabled env then
    match file with
    | none => none
    | some payload =>
      if now - payload.timestamp > cacheTtlSeconds env then none
      else some (payload.jobs.map (fun r => { id := r.id, name := r.name, tags := some r.tags }))
  else none

/-- Character class [A-Za-z0-9_.-] of the cache-key sanitizer
(_build_cache_path, line 40). -/
def isSafeKeyChar (c : Char) : Bool :=
  ('A' ≤ c && c ≤ 'Z') || ('a' ≤ c && c ≤ 'z') || ('0' ≤ c && c ≤ '9') ||
    c = '_' || c = '.' || c = '-'

/-- Python re.sub(r"[^A-Za-z0-9_.-]+", "_", key): each maximal run of
characters outside the class is replaced by a single underscore. The flag
records whether the previous character was part of such a run. -/
def sanitizeKeyChars : Bool → List Char → List Char
  | _, [] => []
  | inRun, c :: cs =>
    if isSafeKeyChar c then c :: sanitizeKeyChars false cs
    else if inRun then sanitizeKeyChars true cs
    else '_' :: sanitizeKeyChars true cs

/-- Sanitize a cache key string. -/
def sanitizeKey (s : String) : String :=
  String.mk (sanitizeKeyChars false s.data)

/-- The raw cache key "profile@host" (lines 38-39): a falsy profile (None or
empty) becomes "default" (constructor, line 26) and a falsy host becomes
"unknown". -/
def rawCacheKey (profile : Option String) (host : Option String) : String :=
  (match profile with
   | none => "default"
   | some p => if p = "" then "default" else p)
  ++ "@" ++
  (match host with
   | none => "unknown"
   | some h => if h = "" then "unknown" else h)

/-- The cache file name component "jobs_{safe_key}.json" (line 41). -/
def buildCacheFileName (profile host : Option String) : String :=
  "jobs_" ++ sanitizeKey (rawCacheKey profile host) ++ ".json"

/-- Spec-modelled sanitizer following the specification's words (every
individual character outside [A-Za-z0-9_.-] replaced with one underscore),
stated for comparison with the source's run-collapsing sanitizer. -/
def specPerCharSanitize (s : String) : String :=
  String.mk (s.data.map (fun c => if isSafeKeyChar c then c else '_'))

/-- start_jobs_parallel from src/dbops/core/runs.py (lines 29-63). The
thread pool submits one start per job id, producing the futures list
jobIds.map f for a pure adapter start function f, and as_completed yields
each future exactly once in a scheduler-chosen order: the parameter `order`
makes that nondeterministic completion order explicit (a faithful schedule
is a permutation of all future indices). max_parallel only bounds worker
concurrency, which is invisible for a pure, non-raising start function. -/
def start_jobs_parallel (f : Int → JobRun) (jobIds : List Int) (maxParallel : Int)
    (order : List (Fin jobIds.length)) : Except DbError (List JobRun) :=
  if maxParallel < 1 then .error (.invalidArgument "max_parallel must be >= 1")
  else if jobIds.isEmpty then .ok []
  else .ok (order.map (fun i => f (jobIds.get i)))

/-- A status oracle: `oracle rid k` is the status that the adapter's
get_run_status(rid) reports the k-th time that run is queried. This embeds
the stateful status stub used against the monitor. -/
abbrev StatusOracle := Int → Nat → RunStatus

/-- Monitor loop state of wait_for_runs_with_progress (progress.py lines
73-75): the statuses dictionary, the finished set, the failures tally, and
additionally the number of status queries issued per run id (implicit in the
source as the sequence of adapter calls). -/
structure MonitorState where
  statuses : Int → RunStatus
  polls : Int → Nat
  finished : Finset Int
  failures : Nat

/-- Initial monitor state (lines 73-75): every run PENDING, nothing
finished, zero failures. -/
def initMonitorState : MonitorState :=
  { statuses := fun _ => .pending
    polls := fun _ => 0
    finished := ∅
    failures := 0 }

/-- One iteration of the per-run body of the polling sweep (lines 141-171):
a finished run is skipped; otherwise its status is queried once and
recorded; on a terminal status the run joins the finished set and FAILED or
CANCELED increments the failures tally. -/
def pollOne (oracle : StatusOracle) (r : JobRun) (s : MonitorState) : MonitorState :=
  if r.run_id ∈ s.finished then s
  else
    let st := oracle r.run_id (s.polls r.run_id)
    let s1 : MonitorState :=
      { s with
        statuses := fun i => if i = r.run_id then st else s.statuses i
        polls := fun i => if i = r.run_id then s.polls r.run_id + 1 else s.polls i }
    if st.isTerminal then
      { s1 with
        finished := insert r.run_id s1.finished
        failures := s1.failures + (if st.isFailure then 1 else 0) }
    else s1

/-- One polling tick (the `for r in runs` sweep, line 141). -/
def pollTick (oracle : StatusOracle) : List JobRun → MonitorState → MonitorState
  | [], s => s
  | r :: rest, s => pollTick oracle rest (pollOne oracle r s)

/-- The monitor state after t complete ticks from the initial state. -/
def monitorSteps (oracle : StatusOracle) (runs : List JobRun) : Nat → MonitorState
  | 0 => initMonitorState
  | t + 1 => pollTick oracle runs (monitorSteps oracle runs t)

/-- The while loop of lines 140-173: while len(finished) < len(runs),
perform one sweep. The loop is embedded with explicit fuel; `none` means
the loop has not terminated within `fuel` ticks. -/
def monitorLoop (oracle : StatusOracle) (runs : List JobRun) :
    Nat → MonitorState → Option MonitorState
  | fuel, s =>
    if runs.length ≤ s.finished.card then some s
    else
      match fuel with
      | 0 => none
      | fuel2 + 1 => monitorLoop oracle runs fuel2 (pollTick oracle runs s)

/-- wait_for_runs_with_progress (lines 60-177), display layer omitted as
presentation-only: run the polling loop to completion and return the
(run, final status) pairs in the input order (line 177). -/
def wait_for_runs_with_progress (oracle : StatusOracle) (runs : List JobRun)
    (fuel : Nat) : Option (List (JobRun × RunStatus)) :=
  (monitorLoop oracle runs fuel initMonitorState).map
    (fun s => runs.map (fun r => (r, s.statuses r.run_id)))

/-- The first poll index strictly below the bound t at which the oracle
reports a terminal status for run rid, if any. -/
def firstTermBefore (oracle : StatusOracle) (rid : Int) (t : Nat) : Option Nat :=
  (List.range t).find? (fun k => (oracle rid k).isTerminal)

/-- Whether run rid has, before tick bound t, first reached a terminal
status that is FAILED or CANCELED. -/
def failedBefore (oracle : StatusOracle) (rid : Int) (t : Nat) : Bool :=
  match firstTermBefore oracle rid t with
  | some k => (oracle rid k).isFailure
  | none => false

/-- A job with an absent tag mapping is loaded back from the cache with an
empty tag mapping; all other jobs are unchanged. -/
def normalizeJobTags (j : Job) : Job :=
  { j with tags := some (j.tags.getD []) }

/-- Claim C8: TagSelector.matches is False (and total, hence never raises)
whenever the job's tags are absent or empty, and otherwise is True exactly
when the tag mapping sends the key to the expected value. -/
theorem c8_tag_matches (k v : String) (job : Job) :
    ((job.tags = none ∨ job.tags = some []) → (Selector.tag k v).matches job = false) ∧
    (∀ l, job.tags = some l →
      ((Selector.tag k v).matches job = true ↔ l.lookup k = some v)) := by
  constructor
  · rintro (h | h) <;> simp [Selector.matches, h]
  · intro l hl
    cases l with
    | nil => simp [Selector.matches, hl, List.lookup]
    | cons hd tl => simp [Selector.matches, hl, List.isEmpty]

theorem c8_witness :
    (Selector.tag "env" "prod").matches { id := 3, name := "etl", tags := none } = false ∧
    (Selector.tag "env" "prod").matches
      { id := 4, name := "etl", tags := some [("env", "prod")] } = true := by
  constructor
  · exact (c8_tag_matches "env" "prod" _).1 (Or.inl rfl)
  · exact ((c8_tag_matches "env" "prod" _).2 [("env", "prod")] rfl).mpr (by decide)

/-- Claim C6: start_jobs_parallel fails with the InvalidArgument ValueError
whenever max_parallel < 1, for every adapter start function, job id list and
completion schedule (so before any dispatch); and for max_parallel >= 1 it
maps the empty job id list to the empty result for every start function
(the adapter is never invoked: the result does not depend on it). -/
theorem c6_dispatch_validation (maxParallel : Int) :
    (∀ (f : Int → JobRun) (jobIds : List Int) (order : List (Fin jobIds.length)),
      maxParallel < 1 →
      start_jobs_parallel f jobIds maxParallel order =
        .error (.invalidArgument "max_parallel must be >= 1")) ∧
    (∀ (f : Int → JobRun) (order : List (Fin (List.length ([] : List Int)))),
      1 ≤ maxParallel →
      start_jobs_parallel f [] maxParallel order = .ok []) := by
  constructor
  · intro f jobIds order h
    simp [start_jobs_parallel, h]
  · intro f order h
    have h2 : ¬ maxParallel < 1 := by omega
    simp [start_jobs_parallel, h2]

theorem c6_witness :
    start_jobs_parallel (fun i => { run_id := i * 10, job_id := i }) [1, 2] 0 [] =
      .error (.invalidArgument "max_parallel must be >= 1") ∧
    start_jobs_parallel (fun i => { run_id := i * 10, job_id := i }) [] 4 [] = .ok [] := by
  constructor
  · exact (c6_dispatch_validation 0).1 _ [1, 2] [] (by decide)
  · exact (c6_dispatch_validation 4).2 _ [] (by decide)

/-- Claim C5: for a pure, non-raising start function, a non-empty job id
list and max_parallel >= 1, every faithful completion schedule (one
completion per submitted future) makes start_jobs_parallel return a
permutation of the started run handles jobIds.map f: exactly one handle per
requested job id, in no guaranteed order. -/
theorem c5_dispatch_perm (f : Int → JobRun) (jobIds : List Int) (maxParallel : Int)
    (order : List (Fin jobIds.length))
    (h1 : 1 ≤ maxParallel) (h2 : jobIds ≠ [])
    (h3 : order.Perm (List.finRange jobIds.length)) :
    ∃ runs, start_jobs_parallel f jobIds maxParallel order = .ok runs ∧
      runs.Perm (jobIds.map f) := by
  have hlt : ¬ maxParallel < 1 := by omega
  have hne : jobIds.isEmpty = false := by
    cases jobIds with
    | nil => exact absurd rfl h2
    | cons a l => rfl
  refine ⟨order.map (fun i => f (jobIds.get i)), ?_, ?_⟩
  · simp [start_jobs_parallel, hlt, hne]
  · have hperm := h3.map (fun i => f (jobIds.get i))
    have heq : (List.finRange jobIds.length).map (fun i => f (jobIds.get i)) =
        jobIds.map f := by
      have hcomp : (fun i => f (jobIds.get i)) = f ∘ jobIds.get := rfl
      rw [hcomp, ← List.map_map, List.finRange_map_get]
    exact heq ▸ hperm

theorem c5_witness :
    ∃ runs, start_jobs_parallel (fun i => { run_id := i * 10, job_id := i }) [1, 2, 3] 2
        [⟨2, by decide⟩, ⟨0, by decide⟩, ⟨1, by decide⟩] = .ok runs ∧
      runs.Perm ([1, 2, 3].map (fun i => ({ run_id := i * 10, job_id := i } : JobRun))) :=
  c5_dispatch_perm _ [1, 2, 3] 2 _ (by decide) (by decide) (by decide)

/-- Normalization is the identity on jobs whose tag mapping is present. -/
theorem normalizeJobTags_eq_self (j : Job) (h : j.tags ≠ none) : normalizeJobTags j = j := by
  cases j with
  | mk id name tags =>
    cases tags with
    | none => exact absurd rfl h
    | some l => rfl

/-- Claim C2 fails as stated: a stored job whose tag mapping is absent is
loaded back with an empty tag mapping, so the loaded sequence differs from
the stored list (caching enabled, TTL not elapsed). -/
theorem c2_counterexample :
    load_cached_jobs {} 0
        (store_cached_jobs {} 0 [{ id := 1, name := "a", tags := none }] none) ≠
      some [{ id := 1, name := "a", tags := none }] := by
  decide

/-- Claim C2 (amended): with caching enabled, store followed by load under
the same identity returns the stored jobs with absent tag mappings
normalized to empty ones — equal to the stored list whenever no job has an
absent mapping — as long as at most the TTL has elapsed; once more than the
TTL has elapsed, load returns None. -/
theorem c2_cache_roundtrip_amended (env : CacheEnv) (now now2 : Int) (jobs : List Job)
    (file : Option CachePayload) (hen : cacheEnabled env = true) :
    (now2 - now ≤ cacheTtlSeconds env →
      load_cached_jobs env now2 (store_cached_jobs env now jobs file) =
        some (jobs.map normalizeJobTags)) ∧
    ((∀ j ∈ jobs, j.tags ≠ none) → now2 - now ≤ cacheTtlSeconds env →
      load_cached_jobs env now2 (store_cached_jobs env now jobs file) = some jobs) ∧
    (cacheTtlSeconds env < now2 - now →
      load_cached_jobs env now2 (store_cached_jobs env now jobs file) = none) := by
  have hfresh : ∀ ht : now2 - now ≤ cacheTtlSeconds env,
      load_cached_jobs env now2 (store_cached_jobs env now jobs file) =
        some (jobs.map normalizeJobTags) := by
    intro ht
    have hnot : ¬ now2 - now > cacheTtlSeconds env := by omega
    simp only [store_cached_jobs, load_cached_jobs, hen, if_true, hnot, if_false,
      List.map_map]
    refine congrArg some (List.map_congr_left ?_)
    intro j _
    cases j
    rfl
  refine ⟨hfresh, ?_, ?_⟩
  · intro hjobs ht
    rw [hfresh ht]
    refine congrArg some ?_
    calc jobs.map normalizeJobTags
        = jobs.map id := List.map_congr_left
          (fun j hj => normalizeJobTags_eq_self j (hjobs j hj))
      _ = jobs := List.map_id jobs
  · intro ht
    have hnot : now2 - now > cacheTtlSeconds env := ht
    simp [store_cached_jobs, load_cached_jobs, hen, hnot]

theorem c2_witness :
    load_cached_jobs {} 100
        (store_cached_jobs {} 0 [{ id := 1, name := "a", tags := some [("k", "v")] }] none) =
      some [{ id := 1, name := "a", tags := some [("k", "v")] }] ∧
    load_cached_jobs {} 301
        (store_cached_jobs {} 0 [{ id := 1, name := "a", tags := some [("k", "v")] }] none) =
      none := by
  constructor
  · exact (c2_cache_roundtrip_amended {} 0 100 _ none (by decide)).2.1
      (by decide) (by decide)
  · exact (c2_cache_roundtrip_amended {} 0 301 _ none (by decide)).2.2 (by decide)

/-- Every character the sanitizer emits belongs to the safe class. -/
theorem sanitizeKeyChars_all_safe (cs : List Char) :
    ∀ b, ∀ c ∈ sanitizeKeyChars b cs, isSafeKeyChar c = true := by
  induction cs with
  | nil => intro b c hc; simp [sanitizeKeyChars] at hc
  | cons a cs ih =>
    intro b c hc
    by_cases ha : isSafeKeyChar a
    · rw [sanitizeKeyChars, if_pos ha] at hc
      rcases List.mem_cons.mp hc with h | h
      · exact h ▸ ha
      · exact ih false c h
    · rw [sanitizeKeyChars, if_neg ha] at hc
      cases b with
      | true => exact ih true c (by simpa using hc)
      | false =>
        rcases List.mem_cons.mp (by simpa using hc) with h | h
        · exact h ▸ (by decide)
        · exact ih true c h

/-- The sanitizer never lengthens its input. -/
theorem sanitizeKeyChars_length_le (cs : List Char) :
    ∀ b, (sanitizeKeyChars b cs).length ≤ cs.length := by
  induction cs with
  | nil => intro b; simp [sanitizeKeyChars]
  | cons a cs ih =>
    intro b
    by_cases ha : isSafeKeyChar a
    · rw [sanitizeKeyChars, if_pos ha]
      simpa using ih false
    · rw [sanitizeKeyChars, if_neg ha]
      cases b with
      | true => simpa using Nat.le_succ_of_le (ih true)
      | false => simpa using ih true


/-- Whether no two adjacent characters are both outside the safe class. -/
def noAdjacentUnsafe : List Char → Bool
  | [] => true
  | [_] => true
  | a :: b :: rest => (isSafeKeyChar a || isSafeKeyChar b) && noAdjacentUnsafe (b :: rest)

/-- On inputs with no two adjacent unsafe characters, run-collapsing
sanitization coincides with per-character replacement. -/
theorem sanitizeKeyChars_chain (cs : List Char) (h : noAdjacentUnsafe cs = true) :
    sanitizeKeyChars false cs = cs.map (fun c => if isSafeKeyChar c then c else '_') := by
  induction cs with
  | nil => rfl
  | cons a cs ih =>
    have htail : noAdjacentUnsafe cs = true := by
      cases cs with
      | nil => rfl
      | cons d rest =>
        simp only [noAdjacentUnsafe, Bool.and_eq_true] at h
        exact h.2
    by_cases ha : isSafeKeyChar a
    · rw [sanitizeKeyChars, if_pos ha, List.map_cons, if_pos ha]
      exact congrArg _ (ih htail)
    · rw [sanitizeKeyChars, if_neg ha, if_neg (by simp), List.map_cons, if_neg ha]
      refine congrArg _ ?_
      cases cs with
      | nil => rfl
      | cons d rest =>
        have hd : isSafeKeyChar d = true := by
          simp only [noAdjacentUnsafe, Bool.and_eq_true, Bool.or_eq_true] at h
          rcases h.1 with h1 | h1
          · exact absurd h1 ha
          · exact h1
        have hih := ih htail
        rw [sanitizeKeyChars, if_pos hd] at hih ⊢
        exact hih

/-- Claim C7 fails as stated: the raw key "a!!b@h" has two adjacent
disallowed characters, which the source collapses into a single underscore,
so the sanitized key differs from the per-character replacement and is
shorter than the raw key. -/
theorem c7_counterexample :
    sanitizeKey (rawCacheKey (some "a!!b") (some "h")) ≠
      specPerCharSanitize (rawCacheKey (some "a!!b") (some "h")) ∧
    (sanitizeKey (rawCacheKey (some "a!!b") (some "h"))).length ≠
      (rawCacheKey (some "a!!b") (some "h")).length := by
  decide

/-- Claim C7 (amended): the cache key is formed as
"profile-or-default@host-or-unknown" and then each maximal run of
characters outside [A-Za-z0-9_.-] is replaced by one underscore: the result
contains only safe characters, is never longer than the raw key, and agrees
with the spec's per-character replacement (hence preserves the length)
exactly when the raw key has no two adjacent disallowed characters. -/
theorem c7_sanitize_amended (profile host : Option String) :
    (∀ c ∈ (sanitizeKey (rawCacheKey profile host)).data, isSafeKeyChar c = true) ∧
    (sanitizeKey (rawCacheKey profile host)).length ≤ (rawCacheKey profile host).length ∧
    (noAdjacentUnsafe (rawCacheKey profile host).data = true →
      sanitizeKey (rawCacheKey profile host) = specPerCharSanitize (rawCacheKey profile host)) := by
  refine ⟨?_, ?_, ?_⟩
  · exact sanitizeKeyChars_all_safe _ false
  · exact sanitizeKeyChars_length_le _ false
  · intro hchain
    exact congrArg String.mk (sanitizeKeyChars_chain _ hchain)

theorem c7_witness :
    sanitizeKey (rawCacheKey (some "a!b") (some "h#2")) =
      specPerCharSanitize (rawCacheKey (some "a!b") (some "h#2")) :=
  (c7_sanitize_amended (some "a!b") (some "h#2")).2.2 (by decide)

/-- When every tag string contains a `=`, the tag loop splits each at its
first `=` (into a possibly empty key and a value that may contain `=`). -/
theorem buildTagSelectors_ok (tags : List String)
    (h : ∀ t ∈ tags, hasEqChar t.data = true) :
    buildTagSelectors tags = .ok (tags.map tagSelectorOf) := by
  induction tags with
  | nil => rfl
  | cons t ts ih =>
    have ht : hasEqChar t.data = true := h t (List.mem_cons_self t ts)
    rw [buildTagSelectors, if_pos ht, ih (fun u hu => h u (List.mem_cons_of_mem t hu))]
    rfl

/-- The tag loop raises at the first tag string containing no `=`, naming
that string in the ValueError. -/
theorem buildTagSelectors_error (tags : List String) (t : String)
    (h : tags.find? (fun u => !(hasEqChar u.data)) = some t) :
    buildTagSelectors tags =
      .error (.invalidSelector ("Ongeldige tag selector: '" ++ t ++ "' (verwacht key=value)")) := by
  induction tags with
  | nil => simp [List.find?] at h
  | cons a ts ih =>
    by_cases ha : hasEqChar a.data
    · have hfind : ts.find? (fun u => !(hasEqChar u.data)) = some t := by
        rw [List.find?] at h
        simpa [ha] using h
      rw [buildTagSelectors, if_pos ha, ih hfind]
      rfl
    · have hat : a = t := by
        rw [List.find?] at h
        simp [ha] at h
        exact h
      rw [buildTagSelectors, if_neg ha, hat]

/-- Claim C1 fails as stated: a tag string with two `=` characters and one
with an empty key are both accepted by build_selector (split at the first
`=`), where the claim requires an InvalidSelector error. -/
theorem c1_counterexample :
    build_selector none ["a=b=c"] false = .ok (.tag "a" "b=c") ∧
    build_selector none ["=prod"] false = .ok (.tag "" "prod") := by
  constructor <;> rfl

/-- Claim C1 (amended): given that the optional name pattern contributes
its selectors without a regex error, build_selector fails with an
InvalidSelector error when no selector at all is supplied; fails with an
InvalidSelector error naming the offending string when some tag string
contains no `=` (tags with at least one `=` are split at the first `=`
into a possibly empty key and a remainder value); returns a single selector
unwrapped; and wraps two or more selectors in Or when the flag is set, else
And. -/
theorem c1_build_selector_amended (name : Option String) (tags : List String)
    (use_or : Bool) (ns : List Selector) (hn : nameStage name = .ok ns) :
    (ns = [] → tags = [] →
      build_selector name tags use_or =
        .error (.invalidSelector "Minstens één selector is verplicht (--name of --tag)")) ∧
    (∀ t, tags.find? (fun u => !(hasEqChar u.data)) = some t →
      build_selector name tags use_or =
        .error (.invalidSelector ("Ongeldige tag selector: '" ++ t ++ "' (verwacht key=value)"))) ∧
    ((∀ t ∈ tags, hasEqChar t.data = true) →
      build_selector name tags use_or =
        match ns ++ tags.map tagSelectorOf with
        | [] => .error (.invalidSelector "Minstens één selector is verplicht (--name of --tag)")
        | [s] => .ok s
        | sels => .ok (if use_or then .or sels else .and sels)) := by
  refine ⟨?_, ?_, ?_⟩
  · intro h1 h2
    subst h1; subst h2
    rw [build_selector, hn]
    rfl
  · intro t ht
    rw [build_selector, hn, buildTagSelectors_error tags t ht]
  · intro hall
    rw [build_selector, hn, buildTagSelectors_ok tags hall]

theorem c1_witness :
    build_selector none [] false =
      .error (.invalidSelector "Minstens één selector is verplicht (--name of --tag)") ∧
    build_selector none ["broken"] false =
      .error (.invalidSelector "Ongeldige tag selector: 'broken' (verwacht key=value)") ∧
    build_selector none ["env=prod"] false = .ok (.tag "env" "prod") ∧
    build_selector none ["env=prod", "team=x"] true =
      .ok (.or [.tag "env" "prod", .tag "team" "x"]) ∧
    build_selector none ["env=prod", "team=x"] false =
      .ok (.and [.tag "env" "prod", .tag "team" "x"]) := by
  refine ⟨?_, ?_, ?_, ?_, ?_⟩
  · exact (c1_build_selector_amended none [] false [] rfl).1 rfl rfl
  · exact (c1_build_selector_amended none ["broken"] false [] rfl).2.1 "broken" rfl
  · exact (c1_build_selector_amended none ["env=prod"] false [] rfl).2.2
      (by decide)
  · exact (c1_build_selector_amended none ["env=prod", "team=x"] true [] rfl).2.2
      (by decide)
  · exact (c1_build_selector_amended none ["env=prod", "team=x"] false [] rfl).2.2
      (by decide)

/-- An unstarred atom never matches the empty segment. -/
theorem SegMatch.not_false_nil (b : RegexBase) (p : RegexProg) :
    ¬ SegMatch (⟨b, false⟩ :: p) [] := by
  intro h
  cases h

/-- Inversion for an unstarred atom against a non-empty segment. -/
theorem segMatch_false_cons_iff (b : RegexBase) (p : RegexProg) (c : Char) (cs : List Char) :
    SegMatch (⟨b, false⟩ :: p) (c :: cs) ↔ b.matchesChar c = true ∧ SegMatch p cs := by
  constructor
  · intro h
    cases h with
    | one h1 h2 => exact ⟨h1, h2⟩
  · rintro ⟨h1, h2⟩
    exact .one h1 h2

/-- Inversion for a starred atom. -/
theorem segMatch_star_iff (b : RegexBase) (p : RegexProg) (cs : List Char) :
    SegMatch (⟨b, true⟩ :: p) cs ↔
      SegMatch p cs ∨
        ∃ c cs2, cs = c :: cs2 ∧ b.matchesChar c = true ∧ SegMatch (⟨b, true⟩ :: p) cs2 := by
  constructor
  · intro h
    cases h with
    | starSkip h1 => exact Or.inl h1
    | starStep h1 h2 => exact Or.inr ⟨_, _, rfl, h1, h2⟩
  · rintro (h | ⟨c, cs2, rfl, h1, h2⟩)
    · exact .starSkip h
    · exact .starStep h1 h2

/-- The empty-input matcher decides SegMatch on the empty segment. -/
theorem matchPre_nil_iff (p : RegexProg) : matchPre p [] = true ↔ SegMatch p [] := by
  induction p with
  | nil => exact ⟨fun _ => .nil, fun _ => rfl⟩
  | cons a p ih =>
    cases a with
    | mk b star =>
      cases star with
      | false =>
        constructor
        · intro h
          exact absurd h (by simp [matchPre, matchPreL, matchPreNilP])
        · intro h
          exact absurd h (SegMatch.not_false_nil b p)
      | true =>
        have hunfold : matchPre (⟨b, true⟩ :: p) [] = matchPre p [] := rfl
        rw [hunfold, ih]
        constructor
        · exact fun h => .starSkip h
        · intro h
          cases h with
          | starSkip h1 => exact h1

/-- The matcher decides whether some prefix of the input is matched by the
pattern under the declarative SegMatch semantics. -/
theorem matchPre_iff (cs : List Char) : ∀ p : RegexProg,
    (matchPre p cs = true ↔ ∃ mid rest, cs = mid ++ rest ∧ SegMatch p mid) := by
  induction cs with
  | nil =>
    intro p
    constructor
    · intro h
      exact ⟨[], [], rfl, (matchPre_nil_iff p).mp h⟩
    · rintro ⟨mid, rest, hmr, hsm⟩
      obtain ⟨hm, hr⟩ := List.append_eq_nil.mp hmr.symm
      subst hm
      exact (matchPre_nil_iff p).mpr hsm
  | cons c cs2 ih =>
    intro p
    induction p with
    | nil => exact ⟨fun _ => ⟨[], c :: cs2, rfl, .nil⟩, fun _ => rfl⟩
    | cons a p ihp =>
      cases a with
      | mk b star =>
        cases star with
        | false =>
          rw [show matchPre (⟨b, false⟩ :: p) (c :: cs2) =
                (b.matchesChar c && matchPre p cs2) from rfl]
          constructor
          · intro h
            obtain ⟨hb, hm⟩ := Bool.and_eq_true_iff.mp h
            obtain ⟨mid, rest, heq, hsm⟩ := (ih p).mp hm
            exact ⟨c :: mid, rest, by rw [List.cons_append, heq], .one hb hsm⟩
          · rintro ⟨mid, rest, heq, hsm⟩
            cases mid with
            | nil => exact absurd hsm (SegMatch.not_false_nil b p)
            | cons m mid2 =>
              rw [List.cons_append] at heq
              injection heq with h1 h2
              obtain ⟨hb, hsm2⟩ := (segMatch_false_cons_iff b p m mid2).mp hsm
              have hm : matchPre p cs2 = true := (ih p).mpr ⟨mid2, rest, h2, hsm2⟩
              rw [h1, hb, hm]
              rfl
        | true =>
          rw [show matchPre (⟨b, true⟩ :: p) (c :: cs2) =
                (matchPre p (c :: cs2) ||
                  (b.matchesChar c && matchPre (⟨b, true⟩ :: p) cs2)) from rfl]
          constructor
          · intro h
            rcases Bool.or_eq_true_iff.mp h with h1 | h1
            · obtain ⟨mid, rest, heq, hsm⟩ := ihp.mp h1
              exact ⟨mid, rest, heq, .starSkip hsm⟩
            · obtain ⟨hb, hm⟩ := Bool.and_eq_true_iff.mp h1
              obtain ⟨mid, rest, heq, hsm⟩ := (ih (⟨b, true⟩ :: p)).mp hm
              exact ⟨c :: mid, rest, by rw [List.cons_append, heq], .starStep hb hsm⟩
          · rintro ⟨mid, rest, heq, hsm⟩
            rcases (segMatch_star_iff b p mid).mp hsm with hskip | ⟨d, mid2, hmid, hb, hsm2⟩
            · exact Bool.or_eq_true_iff.mpr (Or.inl (ihp.mpr ⟨mid, rest, heq, hskip⟩))
            · subst hmid
              rw [List.cons_append] at heq
              injection heq with h1 h2
              subst h1
              have hm : matchPre (⟨b, true⟩ :: p) cs2 = true :=
                (ih (⟨b, true⟩ :: p)).mpr ⟨mid2, rest, h2, hsm2⟩
              rw [hb, hm]
              simp

/-- The search decides the existence of a matched substring anywhere in the
input: Python re.search semantics, substring search with no anchoring. -/
theorem searchChars_iff (p : RegexProg) (s : List Char) :
    searchChars p s = true ↔
      ∃ pre mid post, s = pre ++ mid ++ post ∧ SegMatch p mid := by
  induction s with
  | nil =>
    rw [show searchChars p [] = matchPre p [] from rfl]
    constructor
    · intro h
      exact ⟨[], [], [], rfl, (matchPre_nil_iff p).mp h⟩
    · rintro ⟨pre, mid, post, heq, hsm⟩
      obtain ⟨h1, h2⟩ := List.append_eq_nil.mp heq.symm
      obtain ⟨h3, h4⟩ := List.append_eq_nil.mp h1
      subst h4
      exact (matchPre_nil_iff p).mpr hsm
  | cons c cs ih =>
    rw [show searchChars p (c :: cs) = (matchPre p (c :: cs) || searchChars p cs) from rfl]
    constructor
    · intro h
      rcases Bool.or_eq_true_iff.mp h with h1 | h1
      · obtain ⟨mid, rest, heq, hsm⟩ := (matchPre_iff (c :: cs) p).mp h1
        exact ⟨[], mid, rest, by simpa using heq, hsm⟩
      · obtain ⟨pre, mid, post, heq, hsm⟩ := ih.mp h1
        exact ⟨c :: pre, mid, post, by simp [heq], hsm⟩
    · rintro ⟨pre, mid, post, heq, hsm⟩
      cases pre with
      | nil =>
        refine Bool.or_eq_true_iff.mpr (Or.inl ?_)
        exact (matchPre_iff (c :: cs) p).mpr ⟨mid, post, by simpa using heq, hsm⟩
      | cons d pre2 =>
        refine Bool.or_eq_true_iff.mpr (Or.inr ?_)
        rw [List.append_assoc, List.cons_append] at heq
        injection heq with h1 h2
        exact ih.mpr ⟨pre2, mid, post, by rw [h2, List.append_assoc], hsm⟩

/-- Claim C9: constructing a NameRegexSelector from an unparsable pattern
fails with the InvalidSelector ValueError at construction time (matches is
never reached); and for a parsable pattern, construction succeeds and
matches returns True exactly when the compiled pattern matches some
substring of job.name under the SegMatch semantics — substring search
anywhere in the name, with no full-string anchoring. -/
theorem c9_name_regex :
    (∀ pat : String, parseRegex pat = none →
      buildNameRegexSelector pat = .error (.invalidSelector "Invalid regex expression")) ∧
    (∀ (pat : String) (prog : RegexProg), parseRegex pat = some prog →
      buildNameRegexSelector pat = .ok (.nameRegex prog) ∧
      ∀ job : Job, ((Selector.nameRegex prog).matches job = true ↔
        ∃ pre mid post, job.name.data = pre ++ mid ++ post ∧ SegMatch prog mid)) := by
  constructor
  · intro pat hp
    rw [buildNameRegexSelector, hp]
  · intro pat prog hp
    constructor
    · rw [buildNameRegexSelector, hp]
    · intro job
      rw [show (Selector.nameRegex prog).matches job = searchChars prog job.name.data
            from rfl]
      exact searchChars_iff prog job.name.data

theorem c9_witness :
    buildNameRegexSelector "*" = .error (.invalidSelector "Invalid regex expression") ∧
    buildNameRegexSelector "ab" = .ok (.nameRegex [⟨.lit 'a', false⟩, ⟨.lit 'b', false⟩]) ∧
    (Selector.nameRegex [⟨.lit 'a', false⟩, ⟨.lit 'b', false⟩]).matches
      { id := 1, name := "xaby", tags := none } = true := by
  refine ⟨?_, ?_, ?_⟩
  · exact c9_name_regex.1 "*" rfl
  · exact (c9_name_regex.2 "ab" [⟨.lit 'a', false⟩, ⟨.lit 'b', false⟩] rfl).1
  · refine ((c9_name_regex.2 "ab" [⟨.lit 'a', false⟩, ⟨.lit 'b', false⟩] rfl).2
      { id := 1, name := "xaby", tags := none }).mpr ?_
    exact ⟨['x'], ['a', 'b'], ['y'], rfl,
      .one (by decide) (.one (by decide) .nil)⟩

/-- A failure status is terminal. -/
theorem isFailure_imp_terminal :
    ∀ st : RunStatus, st.isFailure = true → st.isTerminal = true := by
  intro st h
  cases st <;> revert h <;> decide

/-- Polling one run leaves every other run id untouched. -/
theorem pollOne_ne (oracle : StatusOracle) (r : JobRun) (s : MonitorState) (i : Int)
    (h : i ≠ r.run_id) :
    (pollOne oracle r s).statuses i = s.statuses i ∧
    (pollOne oracle r s).polls i = s.polls i ∧
    (i ∈ (pollOne oracle r s).finished ↔ i ∈ s.finished) := by
  by_cases hm : r.run_id ∈ s.finished
  · simp [pollOne, hm]
  · by_cases ht : (oracle r.run_id (s.polls r.run_id)).isTerminal
    · simp [pollOne, hm, ht, h, Finset.mem_insert]
    · simp [pollOne, hm, ht, h]

/-- Polling a finished run is a no-op. -/
theorem pollOne_skip (oracle : StatusOracle) (r : JobRun) (s : MonitorState)
    (h : r.run_id ∈ s.finished) : pollOne oracle r s = s := by
  simp [pollOne, h]

/-- Polling an unfinished run queries its status once, records it, and on a
terminal status marks the run finished and counts a failure when FAILED or
CANCELED. -/
theorem pollOne_active (oracle : StatusOracle) (r : JobRun) (s : MonitorState)
    (h : r.run_id ∉ s.finished) :
    (pollOne oracle r s).statuses r.run_id = oracle r.run_id (s.polls r.run_id) ∧
    (pollOne oracle r s).polls r.run_id = s.polls r.run_id + 1 ∧
    (r.run_id ∈ (pollOne oracle r s).finished ↔
      (oracle r.run_id (s.polls r.run_id)).isTerminal = true) ∧
    (pollOne oracle r s).failures =
      s.failures + (if (oracle r.run_id (s.polls r.run_id)).isFailure then 1 else 0) := by
  by_cases ht : (oracle r.run_id (s.polls r.run_id)).isTerminal
  · simp [pollOne, h, ht]
  · have hf : (oracle r.run_id (s.polls r.run_id)).isFailure = false := by
      cases hh : (oracle r.run_id (s.polls r.run_id)).isFailure
      · rfl
      · exact absurd (isFailure_imp_terminal _ hh) (by simp [ht])
    simp [pollOne, h, ht, hf]

/-- The failures tally never decreases and only the polled run can add to
the finished set. -/
theorem pollOne_finished_subset (oracle : StatusOracle) (r : JobRun) (s : MonitorState) :
    (pollOne oracle r s).finished ⊆ insert r.run_id s.finished := by
  by_cases hm : r.run_id ∈ s.finished
  · rw [pollOne_skip oracle r s hm]
    exact Finset.subset_insert _ _
  · by_cases ht : (oracle r.run_id (s.polls r.run_id)).isTerminal
    · simp [pollOne, hm, ht]
    · simp [pollOne, hm, ht, Finset.subset_insert]

/-- A sweep leaves run ids outside the swept list untouched. -/
theorem pollTick_ne (oracle : StatusOracle) (l : List JobRun) :
    ∀ (s : MonitorState) (i : Int), i ∉ l.map JobRun.run_id →
    (pollTick oracle l s).statuses i = s.statuses i ∧
    (pollTick oracle l s).polls i = s.polls i ∧
    (i ∈ (pollTick oracle l s).finished ↔ i ∈ s.finished) := by
  induction l with
  | nil => intro s i _; exact ⟨rfl, rfl, Iff.rfl⟩
  | cons r rest ih =>
    intro s i hi
    have hir : i ≠ r.run_id := by
      intro hcon
      exact hi (by simp [hcon])
    have hirest : i ∉ rest.map JobRun.run_id := by
      intro hcon
      exact hi (by simp [hcon])
    obtain ⟨h1, h2, h3⟩ := pollOne_ne oracle r s i hir
    obtain ⟨g1, g2, g3⟩ := ih (pollOne oracle r s) i hirest
    exact ⟨g1.trans h1, g2.trans h2, g3.trans h3⟩

/-- Per-run characterization of one sweep on a list with pairwise distinct
run ids: a finished run is untouched, an unfinished one is polled exactly
once at its current poll index and becomes finished exactly when that
status is terminal. -/
theorem pollTick_mem (oracle : StatusOracle) (l : List JobRun) :
    ∀ (s : MonitorState) (rid : Int), (l.map JobRun.run_id).Nodup →
    rid ∈ l.map JobRun.run_id →
    (pollTick oracle l s).statuses rid =
      (if rid ∈ s.finished then s.statuses rid else oracle rid (s.polls rid)) ∧
    (pollTick oracle l s).polls rid =
      (if rid ∈ s.finished then s.polls rid else s.polls rid + 1) ∧
    (rid ∈ (pollTick oracle l s).finished ↔
      (rid ∈ s.finished ∨ (oracle rid (s.polls rid)).isTerminal = true)) := by
  induction l with
  | nil => intro s rid _ hmem; simp at hmem
  | cons r rest ih =>
    intro s rid hnd hmem
    have hnd2 : (∀ x ∈ rest, ¬ x.run_id = r.run_id) ∧ (rest.map JobRun.run_id).Nodup := by
      simpa using hnd
    have hndt : (rest.map JobRun.run_id).Nodup := hnd2.2
    have hndh : r.run_id ∉ rest.map JobRun.run_id := by
      intro hcon
      obtain ⟨x, hx, hxe⟩ := List.mem_map.mp hcon
      exact hnd2.1 x hx hxe
    rcases (by simpa using hmem : rid = r.run_id ∨ rid ∈ rest.map JobRun.run_id) with
      hr | hr
    · subst hr
      obtain ⟨t1, t2, t3⟩ := pollTick_ne oracle rest (pollOne oracle r s) r.run_id hndh
      by_cases hm : r.run_id ∈ s.finished
      · rw [show pollTick oracle (r :: rest) s =
              pollTick oracle rest (pollOne oracle r s) from rfl,
          pollOne_skip oracle r s hm]
        rw [pollOne_skip oracle r s hm] at t1 t2 t3
        refine ⟨?_, ?_, ?_⟩
        · rw [t1, if_pos hm]
        · rw [t2, if_pos hm]
        · rw [t3]; exact ⟨fun h => Or.inl h, fun _ => hm⟩
      · obtain ⟨a1, a2, a3, _⟩ := pollOne_active oracle r s hm
        refine ⟨?_, ?_, ?_⟩
        · rw [show pollTick oracle (r :: rest) s =
                pollTick oracle rest (pollOne oracle r s) from rfl, t1, a1, if_neg hm]
        · rw [show pollTick oracle (r :: rest) s =
                pollTick oracle rest (pollOne oracle r s) from rfl, t2, a2, if_neg hm]
        · rw [show pollTick oracle (r :: rest) s =
                pollTick oracle rest (pollOne oracle r s) from rfl]
          rw [t3, a3]
          exact ⟨fun h => Or.inr h, fun h => h.elim (fun hc => absurd hc hm) id⟩
    · have hrne : rid ≠ r.run_id := by
        intro hcon
        exact hndh (hcon ▸ hr)
      obtain ⟨p1, p2, p3⟩ := pollOne_ne oracle r s rid hrne
      obtain ⟨q1, q2, q3⟩ := ih (pollOne oracle r s) rid hndt hr
      rw [show pollTick oracle (r :: rest) s =
            pollTick oracle rest (pollOne oracle r s) from rfl]
      refine ⟨?_, ?_, ?_⟩
      · rw [q1, p2, p1]
        by_cases hm : rid ∈ s.finished
        · rw [if_pos (p3.mpr hm), if_pos hm]
        · rw [if_neg (fun hc => hm (p3.mp hc)), if_neg hm]
      · rw [q2, p2]
        by_cases hm : rid ∈ s.finished
        · rw [if_pos (p3.mpr hm), if_pos hm]
        · rw [if_neg (fun hc => hm (p3.mp hc)), if_neg hm]
      · rw [q3, p3, p2]

/-- One sweep adds to the failures tally exactly one unit per unfinished
run of the list whose freshly queried status is FAILED or CANCELED. -/
theorem pollTick_failures (oracle : StatusOracle) (l : List JobRun) :
    ∀ s : MonitorState, (l.map JobRun.run_id).Nodup →
    (pollTick oracle l s).failures =
      s.failures +
        ((l.map JobRun.run_id).filter
          (fun i => if i ∈ s.finished then false
                    else (oracle i (s.polls i)).isFailure)).length := by
  induction l with
  | nil => intro s _; simp [pollTick]
  | cons r rest ih =>
    intro s hnd
    have hnd2 : (∀ x ∈ rest, ¬ x.run_id = r.run_id) ∧ (rest.map JobRun.run_id).Nodup := by
      simpa using hnd
    rw [show pollTick oracle (r :: rest) s =
          pollTick oracle rest (pollOne oracle r s) from rfl]
    by_cases hm : r.run_id ∈ s.finished
    · rw [pollOne_skip oracle r s hm, ih s hnd2.2, List.map_cons, List.filter_cons]
      simp [hm]
    · rw [ih (pollOne oracle r s) hnd2.2, List.map_cons, List.filter_cons]
      have hfilter : (rest.map JobRun.run_id).filter
          (fun i => if i ∈ (pollOne oracle r s).finished then false
                    else (oracle i ((pollOne oracle r s).polls i)).isFailure) =
          (rest.map JobRun.run_id).filter
          (fun i => if i ∈ s.finished then false
                    else (oracle i (s.polls i)).isFailure) := by
        apply List.filter_congr
        intro i hi
        have hine : i ≠ r.run_id := by
          intro hcon
          obtain ⟨x, hx, hxe⟩ := List.mem_map.mp hi
          exact hnd2.1 x hx (by rw [hxe, hcon])
        obtain ⟨_, hp, hf⟩ := pollOne_ne oracle r s i hine
        rw [hp]
        exact if_congr hf rfl rfl
      obtain ⟨_, _, _, a4⟩ := pollOne_active oracle r s hm
      rw [hfilter, a4]
      by_cases hf : (oracle r.run_id (s.polls r.run_id)).isFailure
      · simp [hm, hf]
        omega
      · simp [hm, hf]

/-- A sweep can only add run ids of the swept list to the finished set. -/
theorem pollTick_finished_subset (oracle : StatusOracle) (l : List JobRun) :
    ∀ (s : MonitorState) (X : Finset Int), (∀ r ∈ l, r.run_id ∈ X) →
    s.finished ⊆ X → (pollTick oracle l s).finished ⊆ X := by
  induction l with
  | nil => intro s X _ hs; exact hs
  | cons r rest ih =>
    intro s X hl hs
    apply ih (pollOne oracle r s) X (fun x hx => hl x (List.mem_cons_of_mem r hx))
    intro i hi
    rcases Finset.mem_insert.mp (pollOne_finished_subset oracle r s hi) with h | h
    · exact h ▸ hl r (List.mem_cons_self r rest)
    · exact hs h

/-- No poll index exists below the bound zero. -/
theorem firstTermBefore_zero (oracle : StatusOracle) (rid : Int) :
    firstTermBefore oracle rid 0 = none := rfl

/-- Extending the bound by one keeps an already found first terminal index
and otherwise looks at the new poll index t. -/
theorem firstTermBefore_succ (oracle : StatusOracle) (rid : Int) (t : Nat) :
    firstTermBefore oracle rid (t + 1) =
      (match firstTermBefore oracle rid t with
       | some k => some k
       | none => if (oracle rid t).isTerminal then some t else none) := by
  unfold firstTermBefore
  rw [List.range_succ, List.find?_append]
  cases h : (List.range t).find? (fun k => (oracle rid k).isTerminal) with
  | some k => simp [h, Option.orElse]
  | none =>
    cases hterm : (oracle rid t).isTerminal <;>
      simp [Option.or, List.find?, hterm]

/-- Timeline of one run id through the ticks, for pairwise distinct run
ids: while no terminal status has been reported the run is polled once per
tick (poll count = tick count) and its recorded status is the latest
report; from the tick of the first terminal report onward the run is
finished, its poll count stays frozen at one past that report, and its
recorded status stays that first terminal status. -/
theorem monitorSteps_spec (oracle : StatusOracle) (runs : List JobRun)
    (hnd : (runs.map JobRun.run_id).Nodup) :
    ∀ (t : Nat) (rid : Int), rid ∈ runs.map JobRun.run_id →
    ((monitorSteps oracle runs t).polls rid =
      (match firstTermBefore oracle rid t with
       | none => t
       | some k => k + 1)) ∧
    (rid ∈ (monitorSteps oracle runs t).finished ↔
      (firstTermBefore oracle rid t).isSome = true) ∧
    ((monitorSteps oracle runs t).statuses rid =
      (match firstTermBefore oracle rid t with
       | some k => oracle rid k
       | none => (match t with
                  | 0 => RunStatus.pending
                  | u + 1 => oracle rid u))) := by
  intro t
  induction t with
  | zero =>
    intro rid _
    refine ⟨rfl, ?_, rfl⟩
    simp [monitorSteps, initMonitorState, firstTermBefore]
  | succ t iht =>
    intro rid hm
    obtain ⟨ih1, ih2, ih3⟩ := iht rid hm
    obtain ⟨m1, m2, m3⟩ :=
      pollTick_mem oracle runs (monitorSteps oracle runs t) rid hnd hm
    rw [show monitorSteps oracle runs (t + 1) =
          pollTick oracle runs (monitorSteps oracle runs t) from rfl]
    rw [firstTermBefore_succ]
    cases hft : firstTermBefore oracle rid t with
    | some k =>
      have hmem : rid ∈ (monitorSteps oracle runs t).finished :=
        ih2.mpr (by simp [hft])
      rw [hft] at ih1 ih3
      refine ⟨?_, ?_, ?_⟩
      · rw [m2, if_pos hmem]
        exact ih1
      · simp only [m3]
        simp [hmem]
      · rw [m1, if_pos hmem]
        exact ih3
    | none =>
      have hnmem : rid ∉ (monitorSteps oracle runs t).finished := by
        intro hcon
        have h2 := ih2.mp hcon
        rw [hft] at h2
        simp at h2
      rw [hft] at ih1 ih3
      cases hterm : (oracle rid t).isTerminal with
      | true =>
        refine ⟨?_, ?_, ?_⟩
        · rw [m2, if_neg hnmem, ih1]
          simp [hterm]
        · rw [ih1] at m3
          simp only [m3]
          simp [hnmem, hterm]
        · rw [m1, if_neg hnmem, ih1]
          simp [hterm]
      | false =>
        refine ⟨?_, ?_, ?_⟩
        · rw [m2, if_neg hnmem, ih1]
          simp [hterm]
        · rw [ih1] at m3
          simp only [m3]
          simp [hnmem, hterm]
        · rw [m1, if_neg hnmem, ih1]
          simp [hterm]

/-- The finished set only ever contains run ids of the monitored runs. -/
theorem monitorSteps_finished_subset (oracle : StatusOracle) (runs : List JobRun)
    (t : Nat) :
    (monitorSteps oracle runs t).finished ⊆ (runs.map JobRun.run_id).toFinset := by
  induction t with
  | zero => simp [monitorSteps, initMonitorState]
  | succ t ih =>
    rw [show monitorSteps oracle runs (t + 1) =
          pollTick oracle runs (monitorSteps oracle runs t) from rfl]
    refine pollTick_finished_subset oracle runs _ _ ?_ ih
    intro r hr
    exact List.mem_toFinset.mpr (List.mem_map_of_mem JobRun.run_id hr)

/-- Whether run rid is newly reported failed at poll index t (no terminal
report strictly before t, and the report at t is FAILED or CANCELED). -/
def newlyFailedAt (oracle : StatusOracle) (rid : Int) (t : Nat) : Bool :=
  match firstTermBefore oracle rid t with
  | some _ => false
  | none => (oracle rid t).isFailure

/-- failedBefore unfolds tick by tick, and a run already terminal is never
newly failed again. -/
theorem failedBefore_succ (oracle : StatusOracle) (rid : Int) (t : Nat) :
    failedBefore oracle rid (t + 1) =
      (failedBefore oracle rid t || newlyFailedAt oracle rid t) := by
  unfold failedBefore newlyFailedAt
  rw [firstTermBefore_succ]
  cases h : firstTermBefore oracle rid t with
  | some k => simp
  | none =>
    cases hterm : (oracle rid t).isTerminal with
    | true => simp
    | false =>
      have hf : (oracle rid t).isFailure = false := by
        cases hh : (oracle rid t).isFailure
        · rfl
        · exact absurd (isFailure_imp_terminal _ hh) (by simp [hterm])
      simp [hf]

/-- Counting a pointwise disjoint disjunction of boolean predicates splits
into the two counts. -/
theorem length_filter_or_disjoint (l : List Int) (p q h : Int → Bool)
    (hpq : ∀ i ∈ l, h i = (p i || q i)) (hdis : ∀ i ∈ l, ¬(p i = true ∧ q i = true)) :
    (l.filter h).length = (l.filter p).length + (l.filter q).length := by
  induction l with
  | nil => rfl
  | cons a rest ih =>
    have hih := ih (fun i hi => hpq i (List.mem_cons_of_mem a hi))
      (fun i hi => hdis i (List.mem_cons_of_mem a hi))
    have hha := hpq a (List.mem_cons_self a rest)
    have hda := hdis a (List.mem_cons_self a rest)
    rw [List.filter_cons, List.filter_cons, List.filter_cons, hha]
    cases hp : p a <;> cases hq : q a <;> simp_all <;> omega

/-- The failures tally after t ticks counts exactly the run ids whose
first terminal report was FAILED or CANCELED and occurred before tick t:
each such run contributes exactly once, at the tick of that report. -/
theorem monitorSteps_failures (oracle : StatusOracle) (runs : List JobRun)
    (hnd : (runs.map JobRun.run_id).Nodup) :
    ∀ t : Nat, (monitorSteps oracle runs t).failures =
      ((runs.map JobRun.run_id).filter (fun i => failedBefore oracle i t)).length := by
  intro t
  induction t with
  | zero =>
    have hzero : ∀ i ∈ runs.map JobRun.run_id, failedBefore oracle i 0 = false := by
      intro i _
      rfl
    rw [show (monitorSteps oracle runs 0).failures = 0 from rfl]
    rw [List.filter_congr hzero]
    simp
  | succ t ih =>
    rw [show monitorSteps oracle runs (t + 1) =
          pollTick oracle runs (monitorSteps oracle runs t) from rfl]
    rw [pollTick_failures oracle runs (monitorSteps oracle runs t) hnd, ih]
    have hnew : ∀ i ∈ runs.map JobRun.run_id,
        (if i ∈ (monitorSteps oracle runs t).finished then false
         else (oracle i ((monitorSteps oracle runs t).polls i)).isFailure) =
          newlyFailedAt oracle i t := by
      intro i hi
      obtain ⟨s1, s2, _⟩ := monitorSteps_spec oracle runs hnd t i hi
      unfold newlyFailedAt
      cases hft : firstTermBefore oracle i t with
      | some k =>
        have hmem : i ∈ (monitorSteps oracle runs t).finished := s2.mpr (by simp [hft])
        simp [hmem]
      | none =>
        have hnmem : i ∉ (monitorSteps oracle runs t).finished := by
          intro hcon
          have h2 := s2.mp hcon
          rw [hft] at h2
          simp at h2
        rw [hft] at s1
        simp only [if_neg hnmem, s1]
    rw [List.filter_congr hnew]
    have hsplit : ((runs.map JobRun.run_id).filter
        (fun i => failedBefore oracle i (t + 1))).length =
        ((runs.map JobRun.run_id).filter (fun i => failedBefore oracle i t)).length +
          ((runs.map JobRun.run_id).filter (fun i => newlyFailedAt oracle i t)).length := by
      refine length_filter_or_disjoint _ _ _ _ ?_ ?_
      · intro i _
        exact failedBefore_succ oracle i t
      · intro i _
        rintro ⟨hp, hq⟩
        unfold failedBefore at hp
        unfold newlyFailedAt at hq
        cases hft : firstTermBefore oracle i t with
        | some k => rw [hft] at hq; simp at hq
        | none => rw [hft] at hp; simp at hp
    rw [hsplit]

/-- With pairwise distinct run ids, the loop guard len(finished) >= len(runs)
holds exactly when every monitored run id is finished. -/
theorem full_iff (oracle : StatusOracle) (runs : List JobRun)
    (hnd : (runs.map JobRun.run_id).Nodup) (t : Nat) :
    runs.length ≤ (monitorSteps oracle runs t).finished.card ↔
      ∀ rid ∈ runs.map JobRun.run_id, rid ∈ (monitorSteps oracle runs t).finished := by
  have hsub := monitorSteps_finished_subset oracle runs t
  have hcardX : (runs.map JobRun.run_id).toFinset.card = runs.length := by
    rw [List.toFinset_card_of_nodup hnd, List.length_map]
  constructor
  · intro h rid hmem
    have heq : (monitorSteps oracle runs t).finished = (runs.map JobRun.run_id).toFinset :=
      Finset.eq_of_subset_of_card_le hsub (by omega)
    rw [heq]
    exact List.mem_toFinset.mpr hmem
  · intro h
    have hsup : (runs.map JobRun.run_id).toFinset ⊆ (monitorSteps oracle runs t).finished :=
      fun x hx => h x (List.mem_toFinset.mp hx)
    have := Finset.card_le_card hsup
    omega

/-- Whatever state the polling loop returns is a tick state whose finished
set satisfies the loop guard. -/
theorem monitorLoop_sound (oracle : StatusOracle) (runs : List JobRun) :
    ∀ (fuel t : Nat) (s : MonitorState),
    monitorLoop oracle runs fuel (monitorSteps oracle runs t) = some s →
    ∃ u, t ≤ u ∧ s = monitorSteps oracle runs u ∧
      runs.length ≤ (monitorSteps oracle runs u).finished.card := by
  intro fuel
  induction fuel with
  | zero =>
    intro t s h
    rw [monitorLoop] at h
    by_cases hfull : runs.length ≤ (monitorSteps oracle runs t).finished.card
    · rw [if_pos hfull] at h
      exact ⟨t, Nat.le_refl t, (Option.some.injEq _ _ ▸ h).symm, hfull⟩
    · rw [if_neg hfull] at h
      simp at h
  | succ n ih =>
    intro t s h
    rw [monitorLoop] at h
    by_cases hfull : runs.length ≤ (monitorSteps oracle runs t).finished.card
    · rw [if_pos hfull] at h
      exact ⟨t, Nat.le_refl t, (Option.some.injEq _ _ ▸ h).symm, hfull⟩
    · rw [if_neg hfull] at h
      obtain ⟨u, hu1, hu2, hu3⟩ := ih (t + 1) s h
      exact ⟨u, by omega, hu2, hu3⟩

/-- If the loop guard is reached within the fuel, the loop returns. -/
theorem monitorLoop_complete (oracle : StatusOracle) (runs : List JobRun) :
    ∀ fuel t : Nat,
    (∃ u, t ≤ u ∧ u ≤ t + fuel ∧ runs.length ≤ (monitorSteps oracle runs u).finished.card) →
    (monitorLoop oracle runs fuel (monitorSteps oracle runs t)).isSome = true := by
  intro fuel
  induction fuel with
  | zero =>
    rintro t ⟨u, h1, h2, h3⟩
    have : u = t := by omega
    subst this
    rw [monitorLoop, if_pos h3]
    rfl
  | succ n ih =>
    rintro t ⟨u, h1, h2, h3⟩
    rw [monitorLoop]
    by_cases hfull : runs.length ≤ (monitorSteps oracle runs t).finished.card
    · rw [if_pos hfull]
      rfl
    · rw [if_neg hfull]
      have hne : u ≠ t := by
        intro hcon
        exact hfull (hcon ▸ h3)
      exact ih (t + 1) ⟨u, by omega, by omega, h3⟩

/-- Every list-indexed family of naturals has a strict upper bound. -/
theorem exists_strict_bound (g : JobRun → Nat) (l : List JobRun) :
    ∃ T : Nat, ∀ r ∈ l, g r < T := by
  induction l with
  | nil => exact ⟨1, by intro r hr; simp at hr⟩
  | cons a rest ih =>
    obtain ⟨T, hT⟩ := ih
    refine ⟨max T (g a + 1), ?_⟩
    intro r hr
    rcases List.mem_cons.mp hr with h | h
    · subst h
      exact lt_of_lt_of_le (Nat.lt_succ_self _) (le_max_right _ _)
    · exact lt_of_lt_of_le (hT r h) (le_max_left _ _)

/-- firstTermBefore computes the first terminal poll index: if index k is
terminal and no smaller index is, the search finds k exactly for bounds
above k. -/
theorem firstTermBefore_of_min (oracle : StatusOracle) (rid : Int) (k : Nat)
    (hterm : (oracle rid k).isTerminal = true)
    (hmin : ∀ j < k, (oracle rid j).isTerminal = false) :
    ∀ t : Nat, firstTermBefore oracle rid t = (if k < t then some k else none) := by
  intro t
  induction t with
  | zero => rw [firstTermBefore_zero, if_neg (by omega)]
  | succ t ih =>
    rw [firstTermBefore_succ, ih]
    by_cases hkt : k < t
    · rw [if_pos hkt]
      simp [Nat.lt_succ_of_lt hkt]
    · rw [if_neg hkt]
      by_cases hke : k = t
      · subst hke
        simp [hterm]
      · have hlt : t < k := by omega
        rw [hmin t hlt]
        simp only [Bool.false_eq_true, if_false]
        rw [if_neg (by omega)]

/-- A first terminal index, once found, persists for every larger bound. -/
theorem firstTermBefore_mono (oracle : StatusOracle) (rid : Int) (t k : Nat)
    (h : firstTermBefore oracle rid t = some k) :
    ∀ u : Nat, t ≤ u → firstTermBefore oracle rid u = some k := by
  intro u
  induction u with
  | zero =>
    intro hu
    have : t = 0 := by omega
    subst this
    exact h
  | succ n ih =>
    intro hu
    by_cases htn : t = n + 1
    · subst htn
      exact h
    · have h2 := ih (by omega)
      rw [firstTermBefore_succ, h2]

/-- Claim C3: with pairwise distinct run ids and a status oracle whose
kfun r.run_id is the first poll index reporting a terminal status for run
r, wait_for_runs_with_progress (1) only ever returns the list pairing each
input run, in the original input order, with the first terminal status its
status queries reported — all entries terminal — and (2) does return for
sufficient fuel. -/
theorem c3_monitor_result (oracle : StatusOracle) (runs : List JobRun)
    (hnd : (runs.map JobRun.run_id).Nodup) (kfun : Int → Nat)
    (hk : ∀ r ∈ runs, (oracle r.run_id (kfun r.run_id)).isTerminal = true ∧
      ∀ j < kfun r.run_id, (oracle r.run_id j).isTerminal = false) :
    (∀ (fuel : Nat) (out : List (JobRun × RunStatus)),
      wait_for_runs_with_progress oracle runs fuel = some out →
      out = runs.map (fun r => (r, oracle r.run_id (kfun r.run_id))) ∧
      ∀ p ∈ out, p.2.isTerminal = true) ∧
    (∃ fuel : Nat, (wait_for_runs_with_progress oracle runs fuel).isSome = true) := by
  constructor
  · intro fuel out hout
    unfold wait_for_runs_with_progress at hout
    obtain ⟨s, hloop, hmap⟩ := Option.map_eq_some'.mp hout
    obtain ⟨u, _, hu2, hu3⟩ := monitorLoop_sound oracle runs fuel 0 s hloop
    subst hu2
    have hfull := (full_iff oracle runs hnd u).mp hu3
    have hstat : ∀ r ∈ runs,
        (monitorSteps oracle runs u).statuses r.run_id =
          oracle r.run_id (kfun r.run_id) := by
      intro r hr
      have hmem : r.run_id ∈ runs.map JobRun.run_id :=
        List.mem_map_of_mem JobRun.run_id hr
      obtain ⟨_, s2, s3⟩ := monitorSteps_spec oracle runs hnd u r.run_id hmem
      have hks := hk r hr
      have hft := firstTermBefore_of_min oracle r.run_id (kfun r.run_id)
        hks.1 hks.2 u
      have hsome := s2.mp (hfull r.run_id hmem)
      rw [hft] at hsome s3
      by_cases hku : kfun r.run_id < u
      · rw [if_pos hku] at s3
        exact s3
      · rw [if_neg hku] at hsome
        simp at hsome
    have hmap2 : out = runs.map
        (fun r => (r, (monitorSteps oracle runs u).statuses r.run_id)) := hmap.symm
    constructor
    · rw [hmap2]
      exact List.map_congr_left (fun r hr => by rw [hstat r hr])
    · intro p hp
      rw [hmap2] at hp
      obtain ⟨r, hr, hpe⟩ := List.mem_map.mp hp
      rw [← hpe]
      simp only
      rw [hstat r hr]
      exact (hk r hr).1
  · obtain ⟨T, hT⟩ := exists_strict_bound (fun r => kfun r.run_id) runs
    have hfullT : runs.length ≤ (monitorSteps oracle runs T).finished.card := by
      apply (full_iff oracle runs hnd T).mpr
      intro rid hmem
      obtain ⟨r, hr, hre⟩ := List.mem_map.mp hmem
      obtain ⟨_, s2, _⟩ := monitorSteps_spec oracle runs hnd T rid hmem
      apply s2.mpr
      have hks := hk r hr
      rw [← hre,
        firstTermBefore_of_min oracle r.run_id (kfun r.run_id) hks.1 hks.2 T,
        if_pos (hT r hr)]
      rfl
    refine ⟨T, ?_⟩
    have hc := monitorLoop_complete oracle runs T 0
      ⟨T, Nat.zero_le T, by omega, hfullT⟩
    rw [show monitorSteps oracle runs 0 = initMonitorState from rfl] at hc
    cases hml : monitorLoop oracle runs T initMonitorState with
    | none => rw [hml] at hc; simp at hc
    | some s => simp [wait_for_runs_with_progress, hml]

/-- Claim C4: with pairwise distinct run ids, once a run's status queries
first report a terminal status at poll index k (before tick bound t), the
run's poll count is frozen at k + 1 at every later tick — no subsequent
tick queries its status again — and the failures tally after any t ticks
is exactly the number of distinct run ids whose first terminal report was
FAILED or CANCELED, each counted exactly once, at the tick of that first
report. -/
theorem c4_terminal_idempotent (oracle : StatusOracle) (runs : List JobRun)
    (hnd : (runs.map JobRun.run_id).Nodup) (t : Nat) :
    (∀ rid ∈ runs.map JobRun.run_id, ∀ k : Nat,
      firstTermBefore oracle rid t = some k →
      ∀ u : Nat, t ≤ u → (monitorSteps oracle runs u).polls rid = k + 1) ∧
    (monitorSteps oracle runs t).failures =
      ((runs.map JobRun.run_id).filter (fun i => failedBefore oracle i t)).length := by
  constructor
  · intro rid hm k hft u hu
    have hfu := firstTermBefore_mono oracle rid t k hft u hu
    have := (monitorSteps_spec oracle runs hnd u rid hm).1
    rw [hfu] at this
    exact this
  · exact monitorSteps_failures oracle runs hnd t

/-- Claim C10: two entries sharing a run id make the loop guard
unreachable — the finished set of distinct ids can never reach the length
of the run list — so the monitor never returns, for every oracle (even one
reporting terminal statuses throughout) and every fuel. -/
theorem c10_duplicate_nontermination (oracle : StatusOracle) (runs : List JobRun)
    (hdup : ¬ (runs.map JobRun.run_id).Nodup) (fuel : Nat) :
    wait_for_runs_with_progress oracle runs fuel = none := by
  have hcard : ((runs.map JobRun.run_id).toFinset).card < runs.length := by
    rw [List.card_toFinset]
    have hsubl : (runs.map JobRun.run_id).dedup.Sublist (runs.map JobRun.run_id) :=
      List.dedup_sublist _
    have hlen := hsubl.length_le
    have hne : (runs.map JobRun.run_id).dedup.length ≠
        (runs.map JobRun.run_id).length := by
      intro hcon
      exact hdup (hsubl.eq_of_length hcon ▸ List.nodup_dedup _)
    have hml : (runs.map JobRun.run_id).length = runs.length := List.length_map _ _
    omega
  have hnever : ∀ t : Nat,
      ¬ runs.length ≤ (monitorSteps oracle runs t).finished.card := by
    intro t hcon
    have := Finset.card_le_card (monitorSteps_finished_subset oracle runs t)
    omega
  have hloop : ∀ f t : Nat, monitorLoop oracle runs f (monitorSteps oracle runs t) = none := by
    intro f
    induction f with
    | zero =>
      intro t
      rw [monitorLoop, if_neg (hnever t)]
    | succ n ih =>
      intro t
      rw [monitorLoop, if_neg (hnever t)]
      exact ih (t + 1)
  unfold wait_for_runs_with_progress
  rw [show initMonitorState = monitorSteps oracle runs 0 from rfl, hloop fuel 0]
  rfl

/-- A concrete status oracle: run 1 reports RUNNING then SUCCESS, run 2
reports PENDING, FAILED, then SUCCESS. -/
def oracleW : StatusOracle := fun rid k =>
  if rid = 1 then (if k = 0 then .running else .success)
  else if rid = 2 then (if k = 0 then .pending else if k = 1 then .failed else .success)
  else .unknown

/-- Two concrete runs with distinct run ids. -/
def runsW : List JobRun := [{ run_id := 1, job_id := 10 }, { run_id := 2, job_id := 20 }]

/-- Under oracleW, both runs first report a terminal status at poll 1. -/
def kfunW : Int → Nat := fun _ => 1

theorem c3_witness :
    [({ run_id := 1, job_id := 10 }, RunStatus.success),
     ({ run_id := 2, job_id := 20 }, RunStatus.failed)] =
      runsW.map (fun r => (r, oracleW r.run_id (kfunW r.run_id))) :=
  ((c3_monitor_result oracleW runsW (by decide) kfunW (by decide)).1 2 _ rfl).1

theorem c4_witness :
    (monitorSteps oracleW runsW 4).polls 2 = 2 ∧
    (monitorSteps oracleW runsW 4).failures = 1 := by
  constructor
  · exact (c4_terminal_idempotent oracleW runsW (by decide) 2).1 2 (by decide) 1 rfl 4
      (by decide)
  · rw [(c4_terminal_idempotent oracleW runsW (by decide) 4).2]
    rfl

theorem c10_witness :
    wait_for_runs_with_progress (fun _ _ => RunStatus.success)
      [{ run_id := 1, job_id := 10 }, { run_id := 1, job_id := 20 }] 5 = none :=
  c10_duplicate_nontermination _ _ (by decide) 5

end DbOps
